import Mathlib

/-!
Verification of the core of a Boggle-style word game (`src/script.js`):
the exhaustive depth-first word solver (`solveGrid` / `recursivelyFind`),
the dice grid generator with quality retry (`generateGrid` / `buildGridData`),
the interactive selection-path tracker (`trySelectCell` and friends),
the scoring table (`getScore` / `addScore`) and the submission flow
(`submitWord`).

The JavaScript is embedded shallowly: mutable fields of the game object
become explicit state records threaded through pure functions, the shared
mark/unmark visited matrix becomes a visited list passed down the recursion
(the unmark-before-return discipline is then automatic), and the recursion
of `recursivelyFind` is made total with an explicit fuel argument; a
dedicated theorem shows any fuel of at least one unit per grid cell is
enough, which is the source's termination argument.
-/

namespace Ozgeparty

/-- A cell coordinate `(row, col)`.  The recursive solver probes positions
one step outside the grid before its bounds check, so coordinates are
integers and bounds are checked explicitly, as in the source. -/
abbrev Coord := Int × Int

/-- A word, as the list of its characters (JS strings of BMP characters). -/
abbrev Word := List Char

/-- A letter grid: the `this.grid` field, a row-major list of rows. -/
abbrev GridData := List (List Char)

/-- Chebyshev distance between two coordinates:
`max(|Δrow|, |Δcol|)` (king-move metric). -/
def chebDist (p q : Coord) : Nat :=
  max (p.1 - q.1).natAbs (p.2 - q.2).natAbs

/-- Two cells are adjacent when their Chebyshev distance is exactly 1
(8-directional, not the same cell). -/
def adjacent (p q : Coord) : Prop := chebDist p q = 1

instance (p q : Coord) : Decidable (adjacent p q) := by
  unfold adjacent; infer_instance

/-- Reading `this.grid[r][c]`: the letter at a coordinate.  Out-of-range reads never
happen after the source's bounds checks; the default is arbitrary. -/
def letterAt (grid : GridData) (r c : Int) : Char :=
  (grid.getD r.toNat []).getD c.toNat ' '

/-- Models `word.toLocaleUpperCase('tr-TR')`, character-wise, for the Turkish
alphabet: the dotted/dotless i pair is mapped the Turkish way, the other
Turkish letters and ASCII letters are uppercased as usual. -/
def trUpper (ch : Char) : Char :=
  if ch = 'i' then 'İ'
  else if ch = 'ı' then 'I'
  else if ch = 'ç' then 'Ç'
  else if ch = 'ğ' then 'Ğ'
  else if ch = 'ö' then 'Ö'
  else if ch = 'ş' then 'Ş'
  else if ch = 'ü' then 'Ü'
  else ch.toUpper

/-- Uppercase a whole word (tr-TR locale). -/
def trUpperWord (w : Word) : Word := w.map trUpper

/-- The `SCORING` table `{3: 1, 4: 1, 5: 2, 6: 3, 7: 5, 8: 11}`;
`none` models an absent key. -/
def SCORING (len : Nat) : Option Nat :=
  match len with
  | 3 => some 1
  | 4 => some 1
  | 5 => some 2
  | 6 => some 3
  | 7 => some 5
  | 8 => some 11
  | _ => none

/-- The source's `getScore(word)`: `len >= 8` scores 11, otherwise `SCORING[len] || 1`
(the `|| 1` supplies 1 when the table has no entry for `len`). -/
def getScore (word : Word) : Nat :=
  let len := word.length
  if 8 ≤ len then 11
  else (SCORING len).getD 1

/-- The source's `addScore(word)`: `this.score += this.getScore(word)`. -/
def addScore (word : Word) (score : Nat) : Nat :=
  score + getScore word

/-- Models `Set.prototype.add`: append the word unless already present
(JS sets keep insertion order and dedupe). -/
def insertWord (w : Word) (found : List Word) : List Word :=
  if w ∈ found then found else found ++ [w]

/-- Models `w.startsWith(pre)`: does `w` begin with the characters of `pre`? -/
def startsWith : Word → Word → Bool
  | [], _ => true
  | _ :: _, [] => false
  | a :: ps, b :: ws => a == b && startsWith ps ws

/-! ## Selection-path tracker -/

/-- The source's `isCellSelected(r, c)`: is the coordinate anywhere in `selectedCells`? -/
def isCellSelected (sel : List Coord) (r c : Int) : Bool :=
  sel.any fun cell => cell.1 == r && cell.2 == c

/-- The source's `selectCell`: push the coordinate onto `selectedCells`. -/
def selectCell (sel : List Coord) (r c : Int) : List Coord :=
  sel ++ [(r, c)]

/-- The source's `deselectLast`: pop the last selected coordinate (no-op when empty). -/
def deselectLast (sel : List Coord) : List Coord :=
  sel.dropLast

/-- The source's `clearSelection`: empty the selection. -/
def clearSelection : List Coord := []

/-- The source's `trySelectCell(cellEl)` on the coordinate `(r, c)` the element resolves
to: backtrack (pop) when the path has more than one cell and the target is
the second-to-last cell; otherwise append the target when it is adjacent to
the last cell (Chebyshev distance 1, not the same cell) and not already
selected; otherwise leave the selection unchanged.  An empty selection
accepts any first cell. -/
def trySelectCell (sel : List Coord) (r c : Int) : List Coord :=
  if 1 < sel.length ∧ sel.dropLast.getLast? = some (r, c) then
    deselectLast sel
  else
    match sel.getLast? with
    | some lastSel =>
      let dr := (r - lastSel.1).natAbs
      let dc := (c - lastSel.2).natAbs
      if (dr ≤ 1 ∧ dc ≤ 1 ∧ ¬(dr = 0 ∧ dc = 0)) ∧ isCellSelected sel r c = false then
        selectCell sel r c
      else sel
    | none => selectCell sel r c

/-- An input to the selection tracker: a pointer event resolved to a cell,
an explicit clear, or a direct pop (the backtrack primitive). -/
inductive SelAction
  | input (r c : Int)
  | clearSel
  | backtrack
deriving DecidableEq

/-- One step of the selection tracker. -/
def selStep (sel : List Coord) : SelAction → List Coord
  | .input r c => trySelectCell sel r c
  | .clearSel => clearSelection
  | .backtrack => deselectLast sel

/-- The selection reached from the empty path by a sequence of actions. -/
def runSel (acts : List SelAction) : List Coord :=
  acts.foldl selStep []

/-! ## Drag interaction (auto-submit heuristic) -/

/-- The interaction-relevant fields of the game object. -/
structure InputState where
  selectedCells : List Coord
  isDragging : Bool
  interactionMoved : Bool
  isGameActive : Bool
deriving DecidableEq

/-- The source's `handleInputStart`: when the game is active and the press resolves to a
cell, begin a drag, reset the moved flag and try to select the cell. -/
def handleInputStart (st : InputState) (cellHit : Option Coord) : InputState :=
  if st.isGameActive = false then st
  else
    match cellHit with
    | some p =>
      { st with
        isDragging := true
        interactionMoved := false
        selectedCells := trySelectCell st.selectedCells p.1 p.2 }
    | none => st

/-- The source's `handleInputMove`: while dragging in an active game, try to select the
cell under the pointer and record whether the selection length changed. -/
def handleInputMove (st : InputState) (cellHit : Option Coord) : InputState :=
  if st.isDragging = false ∨ st.isGameActive = false then st
  else
    match cellHit with
    | some p =>
      let previousLength := st.selectedCells.length
      let sel := trySelectCell st.selectedCells p.1 p.2
      { st with
        selectedCells := sel
        interactionMoved :=
          if sel.length ≠ previousLength then true else st.interactionMoved }
    | none => st

/-- The source's `handleInputEnd`: stop dragging; the boolean reports whether
`submitWord(true)` is invoked (the auto-submit of a dragged word). -/
def handleInputEnd (st : InputState) : InputState × Bool :=
  if st.isDragging = true then
    ({ st with isDragging := false },
      decide (st.interactionMoved = true ∧ 1 ≤ st.selectedCells.length))
  else (st, false)

/-- The state after pressing on `press` (from selection `sel0`, game
active) and then processing the pointer-move events `ms`. -/
def intervalState (sel0 : List Coord) (press : Coord) (ms : List (Option Coord)) :
    InputState :=
  ms.foldl handleInputMove
    (handleInputStart
      { selectedCells := sel0, isDragging := false, interactionMoved := false,
        isGameActive := true } (some press))

/-- A full press-to-release interval: press on a cell, process the move
events, release.  Returns the final state and whether auto-submit fired. -/
def runInterval (sel0 : List Coord) (press : Coord) (ms : List (Option Coord)) :
    InputState × Bool :=
  handleInputEnd (intervalState sel0 press ms)

/-- Invariant of the states reached while dragging: the drag and game flags
are up, at least one cell is selected, and the moved flag is still down
only while the selection is the single pressed cell. -/
def DragInv (st : InputState) : Prop :=
  st.isDragging = true ∧ st.isGameActive = true ∧
    1 ≤ st.selectedCells.length ∧
    (st.interactionMoved = false → st.selectedCells.length = 1)

/-! ## Solver -/

/-- The eight neighbor offsets, in the source's loop order
(`dr` outer from -1 to 1, `dc` inner, skipping `(0, 0)`). -/
def neighborOffsets : List (Int × Int) :=
  [(-1, -1), (-1, 0), (-1, 1), (0, -1), (0, 1), (1, -1), (1, 0), (1, 1)]

/-- The source's `recursivelyFind(r, c, currentPre, visited, found)`: bounds check,
visited check, extend the prefix with the cell's letter, prune when no
dictionary word starts with it, record the prefix when it is a word of
length at least 3, then recurse into the eight neighbors.  The shared
visited matrix becomes a list threaded downward (unmarking on return is
then implicit), and `fuel` makes the recursion structural; the fuel-
sufficiency theorem below recovers the source's termination argument. -/
def recursivelyFind (gridSize : Nat) (grid : GridData) (dict : List Word) :
    Nat → Int → Int → Word → List Coord → List Word → List Word
  | 0, _, _, _, _, found => found
  | fuel + 1, r, c, curPre, visited, found =>
    if r < 0 ∨ (gridSize : Int) ≤ r ∨ c < 0 ∨ (gridSize : Int) ≤ c then found
    else if (r, c) ∈ visited then found
    else
      let ch := letterAt grid r c
      let nextPre := curPre ++ [ch]
      let potential := dict.any fun w => startsWith nextPre w
      if potential = false then found
      else
        let visited' := (r, c) :: visited
        let found' :=
          if 3 ≤ nextPre.length ∧ nextPre ∈ dict then insertWord nextPre found
          else found
        neighborOffsets.foldl
          (fun acc d =>
            recursivelyFind gridSize grid dict fuel (r + d.1) (c + d.2)
              nextPre visited' acc)
          found'

/-- The root cells of `solveGrid`'s two nested loops: every `(r, c)` with
`0 <= r < gridSize` and `0 <= c < gridSize`, row-major. -/
def allCells (gridSize : Nat) : List Coord :=
  (List.range gridSize).flatMap fun r =>
    (List.range gridSize).map fun c : Nat => ((r : Int), (c : Int))

/-- Runs `solveGrid()` with an explicit fuel for the recursion depth. -/
def solveGridWithFuel (gridSize : Nat) (grid : GridData) (dict : List Word)
    (fuel : Nat) : List Word :=
  (allCells gridSize).foldl
    (fun acc p => recursivelyFind gridSize grid dict fuel p.1 p.2 [] [] acc)
    []

/-- The source's `solveGrid()`: run `recursivelyFind` from every cell with an initially
empty prefix and visited set, collecting found words.  One unit of fuel per
grid cell is enough (theorem `C7_recursion_depth_bounded`). -/
def solveGrid (gridSize : Nat) (grid : GridData) (dict : List Word) :
    List Word :=
  solveGridWithFuel gridSize grid dict (gridSize * gridSize)

/-- A coordinate lies inside the grid: `0 <= row, col < gridSize` (the
negation of `recursivelyFind`'s bounds guard). -/
def inBounds (gridSize : Nat) (p : Coord) : Prop :=
  0 ≤ p.1 ∧ p.1 < (gridSize : Int) ∧ 0 ≤ p.2 ∧ p.2 < (gridSize : Int)

instance (gridSize : Nat) (p : Coord) : Decidable (inBounds gridSize p) := by
  unfold inBounds; infer_instance

/-- A legal path on the grid: nonempty, no repeated cell, consecutive cells
at Chebyshev distance exactly 1, all cells in bounds. -/
def LegalPath (gridSize : Nat) (path : List Coord) : Prop :=
  path ≠ [] ∧ path.Nodup ∧ List.Chain' adjacent path ∧
    ∀ p ∈ path, inBounds gridSize p

/-- The word spelled by a path: the concatenation of its cells' letters. -/
def wordOfPath (grid : GridData) (path : List Coord) : Word :=
  path.map fun p => letterAt grid p.1 p.2

/-! ## Grid generation -/

/-- The base `DICE` pool (16 six-face Turkish dice; the lowercase `m` in
the first die is uppercased only at placement time, as in the source). -/
def DICE : List (List Char) :=
  ["AEEGmN".toList, "AAEOOT".toList, "AIIŞST".toList, "EİİOŞT".toList,
   "AABFKP".toList, "EEGHNV".toList, "DEİLRY".toList, "DEİLĞR".toList,
   "BJKLMZ".toList, "EEİNSU".toList, "EHRTVZ".toList, "HLNNRZ".toList,
   "IMOTUÜ".toList, "AÇELRS".toList, "DİSTTY".toList, "OÖPRTY".toList]

/-- The `DICE_EXTENDED` pool appended for 5×5 games. -/
def DICE_EXTENDED : List (List Char) :=
  ["AAAFRS".toList, "AAEEEE".toList, "AAFIRS".toList, "ADENNN".toList,
   "AEEEEM".toList, "AEEGMU".toList, "AEGMNN".toList, "AFIRSY".toList,
   "BJKQXZ".toList, "CCENST".toList, "CEIILT".toList, "CEILPT".toList,
   "CEIPST".toList, "DDHNOT".toList, "DHHLOR".toList, "DHLNOR".toList,
   "DDLNOR".toList, "EIIITT".toList, "EMOTTT".toList, "ENSSSU".toList,
   "FIPRSY".toList, "GORRVW".toList, "HIPRRY".toList, "NOOTUW".toList,
   "OOOTTU".toList]

/-- The source's `while (sourceDice.length < totalSorts)` loop: append a
fresh copy of `DICE` until the pool holds at least `total` dice. -/
def extendPool (total : Nat) (src : List (List Char)) : List (List Char) :=
  if _h : src.length < total then extendPool total (src ++ DICE) else src
termination_by total - src.length
decreasing_by
  simp only [List.length_append]
  have hd : DICE.length = 16 := rfl
  omega

/-- The source's `buildGridData()`: assemble the pool for the grid size, extend it
cyclically to at least `gridSize²` dice, shuffle (`shuffle` stands for the
random-comparator `sort`, an arbitrary length-preserving rearrangement),
take the first `gridSize²` dice, and fill the grid row-major, picking one
of each die's six faces (`pick`) and uppercasing it. -/
def buildGridData (gridSize : Nat)
    (shuffle : List (List Char) → List (List Char)) (pick : Nat → Fin 6) :
    GridData :=
  let sourceDice := if gridSize = 5 then DICE ++ DICE_EXTENDED else DICE
  let totalSorts := gridSize * gridSize
  let shuffledDice := (shuffle (extendPool totalSorts sourceDice)).take totalSorts
  (List.range gridSize).map fun i =>
    (List.range gridSize).map fun j =>
      let dieIndex := i * gridSize + j
      let die := shuffledDice.getD dieIndex []
      trUpper (die.getD (pick dieIndex).val ' ')

/-- The `for` loop of `generateGrid()`: `i` is the loop counter,
`remaining` the attempts left, `cand i` the grid the `i`-th
`buildGridData()` call would produce.  Returns the committed grid together
with the number of attempts consumed (the source logs `i + 1` on an early
exit). -/
def generateGridLoop (gridSize : Nat) (dict : List Word) (minWords : Nat)
    (cand : Nat → GridData) : Nat → Nat → GridData → Int → GridData × Nat
  | i, 0, bestGrid, _ => (bestGrid, i)
  | i, remaining + 1, bestGrid, maxFound =>
    let g := cand i
    let nwords := (solveGrid gridSize g dict).length
    if minWords ≤ nwords then (g, i + 1)
    else if maxFound < (nwords : Int) then
      generateGridLoop gridSize dict minWords cand (i + 1) remaining g
        (nwords : Int)
    else
      generateGridLoop gridSize dict minWords cand (i + 1) remaining bestGrid
        maxFound

/-- The source's `generateGrid()`: up to `maxAttempts` candidate grids, committing the
first whose solvable word count reaches `minWords`, else the best seen
(`bestGrid` starts `[]`, `maxFound` starts `-1`, as in the source). -/
def generateGrid (gridSize : Nat) (dict : List Word) (cand : Nat → GridData)
    (minWords maxAttempts : Nat) : GridData × Nat :=
  generateGridLoop gridSize dict minWords cand 0 maxAttempts [] (-1)

/-- The source's generation constants: `MIN_WORDS = 15`. -/
def MIN_WORDS : Nat := 15

/-- The source's generation constants: `MAX_ATTEMPTS = 50`. -/
def MAX_ATTEMPTS : Nat := 50

/-! ## Submission flow -/

/-- The state touched by `submitWord`. -/
structure GameState where
  score : Nat
  foundWords : List Word
  selectedCells : List Coord
  isGameActive : Bool
deriving DecidableEq

/-- Outcome reported by `submitWord` (toast messages in the source). -/
inductive SubmitOutcome
  | inactive
  | tooShort
  | alreadyFound
  | notInDictionary
  | accepted (points : Nat)
deriving DecidableEq

/-- The check `typeof commonWords !== 'undefined' && !commonWords.includes(word)`:
the dictionary check rejects only when the global dictionary exists and
lacks the word. -/
def dictRejects (commonWords : Option (List Word)) (word : Word) : Bool :=
  match commonWords with
  | some dict => ! decide (word ∈ dict)
  | none => false

/-- The source's `submitWord()`: do nothing when the game is inactive; otherwise
uppercase the candidate, reject (clearing the selection) when it is shorter
than 3 characters, already found, or rejected by the dictionary; otherwise
add its score, insert it into the found set and clear the selection. -/
def submitWord (commonWords : Option (List Word)) (st : GameState)
    (rawWord : Word) : GameState × SubmitOutcome :=
  if st.isGameActive = false then (st, .inactive)
  else
    let word := trUpperWord rawWord
    if word.length < 3 then
      ({ st with selectedCells := clearSelection }, .tooShort)
    else if word ∈ st.foundWords then
      ({ st with selectedCells := clearSelection }, .alreadyFound)
    else if dictRejects commonWords word = true then
      ({ st with selectedCells := clearSelection }, .notInDictionary)
    else
      ({ st with
          score := addScore word st.score
          foundWords := insertWord word st.foundWords
          selectedCells := clearSelection },
        .accepted (getScore word))

/-! ## Basic lemmas -/

theorem chebDist_comm (p q : Coord) : chebDist p q = chebDist q p := by
  unfold chebDist
  have h1 : (p.1 - q.1).natAbs = (q.1 - p.1).natAbs := by omega
  have h2 : (p.2 - q.2).natAbs = (q.2 - p.2).natAbs := by omega
  rw [h1, h2]

theorem adjacent_symm {p q : Coord} (h : adjacent p q) : adjacent q p := by
  unfold adjacent at *
  rwa [chebDist_comm]

theorem adj_cond_iff (p : Coord) (r c : Int) :
    ((r - p.1).natAbs ≤ 1 ∧ (c - p.2).natAbs ≤ 1 ∧
      ¬((r - p.1).natAbs = 0 ∧ (c - p.2).natAbs = 0)) ↔ adjacent p (r, c) := by
  unfold adjacent chebDist
  simp only
  rcases Nat.le_total (p.1 - r).natAbs (p.2 - c).natAbs with hm | hm
  · rw [Nat.max_eq_right hm]; omega
  · rw [Nat.max_eq_left hm]; omega

theorem isCellSelected_eq_false_iff (sel : List Coord) (r c : Int) :
    isCellSelected sel r c = false ↔ (r, c) ∉ sel := by
  simp only [isCellSelected, List.any_eq_false, Bool.and_eq_true, beq_iff_eq,
    not_and]
  constructor
  · intro h hmem
    exact h _ hmem rfl rfl
  · rintro h ⟨a, b⟩ hmem ha hb
    simp only at ha hb
    subst ha; subst hb
    exact h hmem

theorem chain'_penult_last {R : Coord → Coord → Prop} {l : List Coord}
    {x y : Coord} (hc : List.Chain' R l) (hx : l.dropLast.getLast? = some x)
    (hy : l.getLast? = some y) : R x y := by
  have hne : l ≠ [] := by
    intro h
    subst h
    simp at hy
  have hyl : y = l.getLast hne := by
    rw [List.getLast?_eq_getLast l hne] at hy
    exact (Option.some.inj hy).symm
  have hdec := List.dropLast_append_getLast hne
  rw [← hdec, List.chain'_append] at hc
  have := hc.2.2 x hx (l.getLast hne) (by simp)
  rwa [← hyl] at this

theorem validPath_append {sel : List Coord} {r c : Int} {lastSel : Coord}
    (hc : List.Chain' adjacent sel) (hnd : sel.Nodup)
    (hlast : sel.getLast? = some lastSel) (hadj : adjacent lastSel (r, c))
    (hnot : (r, c) ∉ sel) :
    List.Chain' adjacent (sel ++ [(r, c)]) ∧ (sel ++ [(r, c)]).Nodup := by
  constructor
  · rw [List.chain'_append]
    refine ⟨hc, List.chain'_singleton _, ?_⟩
    intro u hu v hv
    simp only [List.head?_cons, Option.mem_def, Option.some.injEq] at hv
    rw [hlast] at hu
    simp only [Option.mem_def, Option.some.injEq] at hu
    subst hu; subst hv
    exact hadj
  · rw [List.nodup_append]
    refine ⟨hnd, List.nodup_singleton _, ?_⟩
    intro u hu hu1
    simp only [List.mem_singleton] at hu1
    subst hu1
    exact hnot hu

theorem chain'_dropLast {l : List Coord} (hc : List.Chain' adjacent l) :
    List.Chain' adjacent l.dropLast := by
  by_cases h : l = []
  · subst h
    exact List.chain'_nil
  · have hdec := List.dropLast_append_getLast h
    rw [← hdec, List.chain'_append] at hc
    exact hc.1

/-! ## C6: the scoring table -/

/-- C6: for words of length at least 3, `getScore` depends only on the
length and follows the table 3,4 ↦ 1, 5 ↦ 2, 6 ↦ 3, 7 ↦ 5, ≥8 ↦ 11, and is
monotonically non-decreasing in the length on that domain. -/
theorem C6_getScore_table_and_monotone :
    (∀ w w' : Word, w.length = w'.length → getScore w = getScore w') ∧
    (∀ w : Word, w.length = 3 ∨ w.length = 4 → getScore w = 1) ∧
    (∀ w : Word, w.length = 5 → getScore w = 2) ∧
    (∀ w : Word, w.length = 6 → getScore w = 3) ∧
    (∀ w : Word, w.length = 7 → getScore w = 5) ∧
    (∀ w : Word, 8 ≤ w.length → getScore w = 11) ∧
    (∀ w w' : Word, 3 ≤ w.length → w.length ≤ w'.length →
      getScore w ≤ getScore w') := by
  have hval : ∀ (w : Word),
      getScore w = if 8 ≤ w.length then 11 else (SCORING w.length).getD 1 :=
    fun w => rfl
  refine ⟨?_, ?_, ?_, ?_, ?_, ?_, ?_⟩
  · intro w w' h
    rw [hval, hval, h]
  · rintro w (h | h) <;> rw [hval, h] <;> rfl
  · intro w h
    rw [hval, h]; rfl
  · intro w h
    rw [hval, h]; rfl
  · intro w h
    rw [hval, h]; rfl
  · intro w h
    rw [hval, if_pos h]
  · intro w w' h3 hle
    rw [hval, hval]
    by_cases h8 : 8 ≤ w.length
    · rw [if_pos h8, if_pos (le_trans h8 hle)]
    · rw [if_neg h8]
      have hlt : w.length < 8 := by omega
      by_cases h8' : 8 ≤ w'.length
      · rw [if_pos h8']
        set n := w.length with hn
        interval_cases n <;> simp [SCORING]
      · rw [if_neg h8']
        have hlt' : w'.length < 8 := by omega
        set n := w.length with hn
        set m := w'.length with hm
        interval_cases n <;> interval_cases m <;> simp [SCORING]

/-- C10: `getScore` returns 1 (not 0, not an error) for words of length
0, 1 or 2, which are below the scoring table; the guard against scoring
such words is only `submitWord`'s length check, which rejects them with a
`tooShort` outcome, leaving score and found set untouched. -/
theorem C10_below_table_scores_one :
    (∀ w : Word, w.length < 3 → getScore w = 1) ∧
    (∀ (cw : Option (List Word)) (st : GameState) (w : Word),
      st.isGameActive = true → (trUpperWord w).length < 3 →
      submitWord cw st w =
        ({ st with selectedCells := clearSelection }, .tooShort)) := by
  constructor
  · intro w h
    have hval : getScore w = if 8 ≤ w.length then 11 else (SCORING w.length).getD 1 :=
      rfl
    rw [hval, if_neg (by omega)]
    set n := w.length with hn
    have h0 : 0 ≤ n := Nat.zero_le n
    interval_cases n <;> rfl
  · intro cw st w hact hlen
    unfold submitWord
    rw [hact]
    simp only [Bool.true_eq_false, if_false]
    rw [if_pos hlen]

/-- C9: when the global dictionary is absent (`commonWords` undefined),
`submitWord` skips the dictionary check: any candidate whose uppercase form
has length at least 3 and is not yet found is accepted, inserted, and
scored. -/
theorem C9_missing_dictionary_accepts (st : GameState) (w : Word)
    (hact : st.isGameActive = true)
    (hlen : 3 ≤ (trUpperWord w).length)
    (hnew : trUpperWord w ∉ st.foundWords) :
    submitWord none st w =
      ({ st with
          score := st.score + getScore (trUpperWord w)
          foundWords := st.foundWords ++ [trUpperWord w]
          selectedCells := [] },
        .accepted (getScore (trUpperWord w))) := by
  unfold submitWord
  rw [hact]
  simp only [Bool.true_eq_false, if_false]
  rw [if_neg (by omega), if_neg hnew]
  have hdr : dictRejects none (trUpperWord w) = false := rfl
  rw [hdr]
  simp only [Bool.false_eq_true, if_false]
  unfold addScore insertWord clearSelection
  rw [if_neg hnew]

/-- C5: with at least two selected cells, an input equal to the
second-to-last cell pops exactly the last cell (the rest of the path is
unchanged); any other input removes nothing (the selection is a prefix of
the result). -/
theorem C5_backtrack_pops_exactly_last (sel : List Coord) (r c : Int)
    (h2 : 2 ≤ sel.length) :
    (sel.dropLast.getLast? = some (r, c) →
      trySelectCell sel r c = sel.dropLast) ∧
    (sel.dropLast.getLast? ≠ some (r, c) →
      ∃ t, trySelectCell sel r c = sel ++ t) := by
  constructor
  · intro hpen
    unfold trySelectCell
    rw [if_pos ⟨by omega, hpen⟩]
    rfl
  · intro hpen
    unfold trySelectCell
    rw [if_neg (by intro h; exact hpen h.2)]
    cases hl : sel.getLast? with
    | none =>
      exact ⟨[(r, c)], rfl⟩
    | some lastSel =>
      simp only
      split
      · exact ⟨[(r, c)], rfl⟩
      · exact ⟨[], (List.append_nil sel).symm⟩

/-- C2: with the dictionary present and the game active, `submitWord`
rejects — inserting nothing and leaving the score unchanged — exactly when
the uppercased candidate is shorter than 3 characters, already found, or
not in the dictionary; otherwise it inserts the word and adds exactly
`getScore` of it; in every case the selection is cleared. -/
theorem C2_submit_accept_reject (dict : List Word) (st : GameState) (w : Word)
    (hact : st.isGameActive = true) :
    ((submitWord (some dict) st w).1.selectedCells = []) ∧
    (((trUpperWord w).length < 3 ∨ trUpperWord w ∈ st.foundWords ∨
        trUpperWord w ∉ dict) →
      (submitWord (some dict) st w).1.foundWords = st.foundWords ∧
      (submitWord (some dict) st w).1.score = st.score ∧
      (submitWord (some dict) st w).2 ≠
        SubmitOutcome.accepted (getScore (trUpperWord w))) ∧
    (¬ ((trUpperWord w).length < 3 ∨ trUpperWord w ∈ st.foundWords ∨
        trUpperWord w ∉ dict) →
      (submitWord (some dict) st w).1.foundWords =
        st.foundWords ++ [trUpperWord w] ∧
      (submitWord (some dict) st w).1.score =
        st.score + getScore (trUpperWord w) ∧
      (submitWord (some dict) st w).2 =
        SubmitOutcome.accepted (getScore (trUpperWord w))) := by
  unfold submitWord
  rw [hact]
  simp only [Bool.true_eq_false, if_false]
  by_cases h1 : (trUpperWord w).length < 3
  · rw [if_pos h1]
    exact ⟨rfl, fun _ => ⟨rfl, rfl, by simp⟩, fun hn => absurd (Or.inl h1) hn⟩
  · rw [if_neg h1]
    by_cases h2 : trUpperWord w ∈ st.foundWords
    · rw [if_pos h2]
      exact ⟨rfl, fun _ => ⟨rfl, rfl, by simp⟩,
        fun hn => absurd (Or.inr (Or.inl h2)) hn⟩
    · rw [if_neg h2]
      by_cases h3 : trUpperWord w ∈ dict
      · have hdr : dictRejects (some dict) (trUpperWord w) = false := by
          simp [dictRejects, h3]
        rw [hdr]
        simp only [Bool.false_eq_true, if_false]
        refine ⟨rfl, fun hr => ?_, fun _ => ?_⟩
        · rcases hr with h | h | h
          · exact absurd h h1
          · exact absurd h h2
          · exact absurd h3 h
        · refine ⟨?_, ?_, ?_⟩
          · simp [insertWord, h2]
          · rfl
          · trivial
      · have hdr : dictRejects (some dict) (trUpperWord w) = true := by
          simp [dictRejects, h3]
        rw [hdr, if_pos rfl]
        exact ⟨rfl, fun _ => ⟨rfl, rfl, by simp⟩,
          fun hn => absurd (Or.inr (Or.inr h3)) hn⟩

/-! ## C4 and C5: the selection-path tracker -/

theorem trySelectCell_preserves (sel : List Coord) (r c : Int)
    (h : List.Chain' adjacent sel ∧ sel.Nodup) :
    List.Chain' adjacent (trySelectCell sel r c) ∧
      (trySelectCell sel r c).Nodup := by
  unfold trySelectCell
  split
  · exact ⟨chain'_dropLast h.1, (List.dropLast_sublist sel).nodup h.2⟩
  · split
    · next lastSel heq =>
      simp only
      split
      · next hcond =>
        exact validPath_append h.1 h.2 heq
          ((adj_cond_iff lastSel r c).mp hcond.1)
          ((isCellSelected_eq_false_iff sel r c).mp hcond.2)
      · exact h
    · next heq =>
      have : sel = [] := List.getLast?_eq_none_iff.mp heq
      subst this
      exact ⟨List.chain'_singleton _, List.nodup_singleton _⟩

theorem selStep_preserves (sel : List Coord)
    (h : List.Chain' adjacent sel ∧ sel.Nodup) (a : SelAction) :
    List.Chain' adjacent (selStep sel a) ∧ (selStep sel a).Nodup := by
  cases a with
  | input r c => exact trySelectCell_preserves sel r c h
  | clearSel => exact ⟨List.chain'_nil, List.nodup_nil⟩
  | backtrack =>
    exact ⟨chain'_dropLast h.1, (List.dropLast_sublist sel).nodup h.2⟩

theorem runSel_valid (acts : List SelAction) :
    List.Chain' adjacent (runSel acts) ∧ (runSel acts).Nodup := by
  unfold runSel
  suffices hgen : ∀ (sel : List Coord),
      List.Chain' adjacent sel ∧ sel.Nodup →
      List.Chain' adjacent (acts.foldl selStep sel) ∧
        (acts.foldl selStep sel).Nodup from
    hgen [] ⟨List.chain'_nil, List.nodup_nil⟩
  induction acts with
  | nil => exact fun sel h => h
  | cons a rest ih =>
    intro sel h
    exact ih _ (selStep_preserves sel h a)

theorem trySelectCell_ignores (sel : List Coord) (r c : Int) (lastC : Coord)
    (hv : List.Chain' adjacent sel ∧ sel.Nodup)
    (hlast : sel.getLast? = some lastC)
    (hcond : ¬ adjacent lastC (r, c) ∨
      ((r, c) ∈ sel ∧ sel.dropLast.getLast? ≠ some (r, c))) :
    trySelectCell sel r c = sel := by
  unfold trySelectCell
  rw [if_neg, hlast]
  · simp only
    rw [if_neg]
    intro hcond2
    rcases hcond with hna | ⟨hmem, _⟩
    · exact hna ((adj_cond_iff lastC r c).mp hcond2.1)
    · exact absurd ((isCellSelected_eq_false_iff sel r c).mp hcond2.2) (by
        simp [hmem])
  · rintro ⟨hlen, hpen⟩
    rcases hcond with hna | ⟨_, hnp⟩
    · exact hna (adjacent_symm (chain'_penult_last hv.1 hpen hlast))
    · exact hnp hpen

/-- C4: every selection reachable from the empty path by cell inputs,
clears, and backtracks has pairwise-adjacent consecutive cells (Chebyshev
distance exactly 1) and no duplicate coordinate; and an input that is not
adjacent to the last cell, or is already in the path without being the
second-to-last cell, leaves the path unchanged. -/
theorem C4_selection_invariant (acts : List SelAction) :
    (List.Chain' adjacent (runSel acts) ∧ (runSel acts).Nodup) ∧
    (∀ r c lastC, (runSel acts).getLast? = some lastC →
      (¬ adjacent lastC (r, c) ∨
        ((r, c) ∈ runSel acts ∧
          (runSel acts).dropLast.getLast? ≠ some (r, c))) →
      trySelectCell (runSel acts) r c = runSel acts) := by
  refine ⟨runSel_valid acts, ?_⟩
  intro r c lastC hlast hcond
  exact trySelectCell_ignores (runSel acts) r c lastC (runSel_valid acts)
    hlast hcond

/-! ## Solver: small helpers -/

theorem mem_insertWord_iff {w x : Word} {found : List Word} :
    w ∈ insertWord x found ↔ w ∈ found ∨ w = x := by
  unfold insertWord
  split
  · next h =>
    constructor
    · exact Or.inl
    · rintro (hw | rfl)
      · exact hw
      · exact h
  · simp

theorem mem_insertWord_of_mem {w x : Word} {found : List Word}
    (h : w ∈ found) : w ∈ insertWord x found :=
  mem_insertWord_iff.mpr (Or.inl h)

theorem self_mem_insertWord (x : Word) (found : List Word) :
    x ∈ insertWord x found :=
  mem_insertWord_iff.mpr (Or.inr rfl)

theorem startsWith_append_self (a t : Word) : startsWith a (a ++ t) = true := by
  induction a with
  | nil => rfl
  | cons x xs ih => simpa [startsWith] using ih

theorem guard_iff (gridSize : Nat) (r c : Int) :
    ¬(r < 0 ∨ (gridSize : Int) ≤ r ∨ c < 0 ∨ (gridSize : Int) ≤ c) ↔
      inBounds gridSize (r, c) := by
  unfold inBounds
  simp only
  omega

theorem mem_allCells {gridSize : Nat} {p : Coord} :
    p ∈ allCells gridSize ↔ inBounds gridSize p := by
  unfold allCells inBounds
  simp only [List.mem_flatMap, List.mem_map, List.mem_range]
  constructor
  · rintro ⟨r, hr, c, hc, rfl⟩
    simp only
    omega
  · rintro ⟨h1, h2, h3, h4⟩
    refine ⟨p.1.toNat, by omega, p.2.toNat, by omega, ?_⟩
    have e1 : (p.1.toNat : Int) = p.1 := Int.toNat_of_nonneg h1
    have e2 : (p.2.toNat : Int) = p.2 := Int.toNat_of_nonneg h3
    exact Prod.ext e1 e2

theorem length_allCells (gridSize : Nat) :
    (allCells gridSize).length = gridSize * gridSize := by
  unfold allCells
  rw [List.length_flatMap]
  simp only [Function.comp_def, List.length_map, List.length_range]
  rw [List.map_const', List.sum_replicate, smul_eq_mul, List.length_range]

theorem length_le_of_nodup_subset {l m : List Coord} (hnd : l.Nodup)
    (hsub : ∀ p ∈ l, p ∈ m) : l.length ≤ m.length := by
  rw [← List.toFinset_card_of_nodup hnd]
  calc l.toFinset.card
      ≤ m.toFinset.card := Finset.card_le_card fun x hx =>
          List.mem_toFinset.mpr (hsub x (List.mem_toFinset.mp hx))
    _ ≤ m.length := List.toFinset_card_le m

theorem full_visited {gridSize : Nat} {visited : List Coord}
    (hnd : visited.Nodup) (hb : ∀ p ∈ visited, inBounds gridSize p)
    (hlen : gridSize * gridSize ≤ visited.length) :
    ∀ p : Coord, inBounds gridSize p → p ∈ visited := by
  intro p hp
  have hsub : visited.toFinset ⊆ (allCells gridSize).toFinset := by
    intro x hx
    rw [List.mem_toFinset] at hx ⊢
    exact mem_allCells.mpr (hb x hx)
  have hcard : (allCells gridSize).toFinset.card ≤ visited.toFinset.card := by
    have h1 := List.toFinset_card_le (allCells gridSize)
    rw [List.toFinset_card_of_nodup hnd, length_allCells] at *
    omega
  have heq := Finset.eq_of_subset_of_card_le hsub hcard
  have hp' : p ∈ (allCells gridSize).toFinset :=
    List.mem_toFinset.mpr (mem_allCells.mpr hp)
  rw [← heq] at hp'
  exact List.mem_toFinset.mp hp'

theorem adjacent_offset {r c : Int} {d : Int × Int}
    (hd : d ∈ neighborOffsets) : adjacent (r, c) (r + d.1, c + d.2) := by
  apply (adj_cond_iff (r, c) (r + d.1) (c + d.2)).mp
  fin_cases hd <;> simp

theorem offset_mem_of_adjacent {p q : Coord} (h : adjacent p q) :
    (q.1 - p.1, q.2 - p.2) ∈ neighborOffsets := by
  have h' := (adj_cond_iff p q.1 q.2).mpr (by exact h)
  have h1 : q.1 - p.1 = -1 ∨ q.1 - p.1 = 0 ∨ q.1 - p.1 = 1 := by omega
  have h2 : q.2 - p.2 = -1 ∨ q.2 - p.2 = 0 ∨ q.2 - p.2 = 1 := by omega
  have h3 : ¬(q.1 - p.1 = 0 ∧ q.2 - p.2 = 0) := by omega
  rcases h1 with h1 | h1 | h1 <;> rcases h2 with h2 | h2 | h2 <;>
    simp [neighborOffsets, Prod.ext_iff, h1, h2] <;> omega

/-! ## Solver: shape lemmas for the fueled recursion -/

theorem recursivelyFind_oob {gridSize : Nat} {grid : GridData}
    {dict : List Word} {fuel : Nat} {r c : Int} {pre : Word}
    {visited : List Coord} {found : List Word}
    (hg : r < 0 ∨ (gridSize : Int) ≤ r ∨ c < 0 ∨ (gridSize : Int) ≤ c) :
    recursivelyFind gridSize grid dict (fuel + 1) r c pre visited found =
      found := by
  unfold recursivelyFind
  rw [if_pos hg]

theorem recursivelyFind_visited {gridSize : Nat} {grid : GridData}
    {dict : List Word} {fuel : Nat} {r c : Int} {pre : Word}
    {visited : List Coord} {found : List Word}
    (hg : ¬(r < 0 ∨ (gridSize : Int) ≤ r ∨ c < 0 ∨ (gridSize : Int) ≤ c))
    (hv : (r, c) ∈ visited) :
    recursivelyFind gridSize grid dict (fuel + 1) r c pre visited found =
      found := by
  unfold recursivelyFind
  rw [if_neg hg, if_pos hv]

theorem recursivelyFind_pruned {gridSize : Nat} {grid : GridData}
    {dict : List Word} {fuel : Nat} {r c : Int} {pre : Word}
    {visited : List Coord} {found : List Word}
    (hg : ¬(r < 0 ∨ (gridSize : Int) ≤ r ∨ c < 0 ∨ (gridSize : Int) ≤ c))
    (hv : (r, c) ∉ visited)
    (hp : (dict.any fun w =>
      startsWith (pre ++ [letterAt grid r c]) w) = false) :
    recursivelyFind gridSize grid dict (fuel + 1) r c pre visited found =
      found := by
  unfold recursivelyFind
  rw [if_neg hg, if_neg hv]
  simp only
  rw [if_pos hp]

theorem recursivelyFind_descend {gridSize : Nat} {grid : GridData}
    {dict : List Word} {fuel : Nat} {r c : Int} {pre : Word}
    {visited : List Coord} {found : List Word}
    (hg : ¬(r < 0 ∨ (gridSize : Int) ≤ r ∨ c < 0 ∨ (gridSize : Int) ≤ c))
    (hv : (r, c) ∉ visited)
    (hp : (dict.any fun w =>
      startsWith (pre ++ [letterAt grid r c]) w) = true) :
    recursivelyFind gridSize grid dict (fuel + 1) r c pre visited found =
      neighborOffsets.foldl
        (fun acc d =>
          recursivelyFind gridSize grid dict fuel (r + d.1) (c + d.2)
            (pre ++ [letterAt grid r c]) ((r, c) :: visited) acc)
        (if 3 ≤ (pre ++ [letterAt grid r c]).length ∧
            (pre ++ [letterAt grid r c]) ∈ dict
         then insertWord (pre ++ [letterAt grid r c]) found
         else found) := by
  conv_lhs => rw [recursivelyFind]
  rw [if_neg hg, if_neg hv]
  simp only
  rw [if_neg (by simp [hp])]

/-! ## Generic foldl membership helpers -/

theorem mem_foldl_of_mem {β : Type} (f : List Word → β → List Word)
    (hf : ∀ acc d w, w ∈ acc → w ∈ f acc d) :
    ∀ (l : List β) (acc : List Word) (w : Word),
      w ∈ acc → w ∈ l.foldl f acc := by
  intro l
  induction l with
  | nil => exact fun acc w h => h
  | cons d rest ih => exact fun acc w h => ih (f acc d) w (hf acc d w h)

theorem foldl_mem_elim {β : Type} {P : Word → Prop}
    (f : List Word → β → List Word) :
    ∀ (l : List β), (∀ acc d w, d ∈ l → w ∈ f acc d → w ∈ acc ∨ P w) →
      ∀ (acc : List Word) (w : Word), w ∈ l.foldl f acc → w ∈ acc ∨ P w := by
  intro l
  induction l with
  | nil => exact fun _ acc w h => Or.inl h
  | cons d rest ih =>
    intro hstep acc w h
    rcases ih (fun acc' d' w' hd' hw' =>
        hstep acc' d' w' (List.mem_cons_of_mem _ hd') hw') (f acc d) w h
      with h' | h'
    · exact hstep acc d w (List.mem_cons_self d rest) h'
    · exact Or.inr h'

theorem foldl_mem_of_step {β : Type} (f : List Word → β → List Word)
    (hmono : ∀ acc d w, w ∈ acc → w ∈ f acc d) (d : β) (w : Word)
    (hd : ∀ acc, w ∈ f acc d) :
    ∀ (l : List β), d ∈ l → ∀ acc, w ∈ l.foldl f acc := by
  intro l
  induction l with
  | nil => intro h; cases h
  | cons e rest ih =>
    intro hmem acc
    rcases List.mem_cons.mp hmem with rfl | hmem'
    · exact mem_foldl_of_mem f hmono rest _ w (hd acc)
    · exact ih hmem' (f acc e)

/-! ## Solver: found-set monotonicity and fuel insensitivity -/

theorem mem_recursivelyFind_mono (gridSize : Nat) (grid : GridData)
    (dict : List Word) :
    ∀ (fuel : Nat) (r c : Int) (pre : Word) (visited : List Coord)
      (found : List Word) (w : Word), w ∈ found →
      w ∈ recursivelyFind gridSize grid dict fuel r c pre visited found := by
  intro fuel
  induction fuel with
  | zero => exact fun r c pre visited found w h => h
  | succ f ih =>
    intro r c pre visited found w hw
    by_cases hg : r < 0 ∨ (gridSize : Int) ≤ r ∨ c < 0 ∨ (gridSize : Int) ≤ c
    · rw [recursivelyFind_oob hg]; exact hw
    · by_cases hv : (r, c) ∈ visited
      · rw [recursivelyFind_visited hg hv]; exact hw
      · by_cases hp : (dict.any fun x =>
            startsWith (pre ++ [letterAt grid r c]) x) = true
        · rw [recursivelyFind_descend hg hv hp]
          apply mem_foldl_of_mem _ (fun acc d x hx => ih _ _ _ _ acc x hx)
          split
          · exact mem_insertWord_of_mem hw
          · exact hw
        · rw [recursivelyFind_pruned hg hv (by simpa using hp)]; exact hw

theorem recursivelyFind_fuel_succ (gridSize : Nat) (grid : GridData)
    (dict : List Word) :
    ∀ (fuel : Nat) (r c : Int) (pre : Word) (visited : List Coord)
      (found : List Word),
      visited.Nodup → (∀ p ∈ visited, inBounds gridSize p) →
      gridSize * gridSize - visited.length ≤ fuel →
      recursivelyFind gridSize grid dict (fuel + 1) r c pre visited found =
        recursivelyFind gridSize grid dict fuel r c pre visited found := by
  intro fuel
  induction fuel with
  | zero =>
    intro r c pre visited found hnd hb hcnt
    by_cases hg : r < 0 ∨ (gridSize : Int) ≤ r ∨ c < 0 ∨ (gridSize : Int) ≤ c
    · rw [recursivelyFind_oob hg]; rfl
    · have hmem : (r, c) ∈ visited :=
        full_visited hnd hb (by omega) (r, c) ((guard_iff gridSize r c).mp hg)
      rw [recursivelyFind_visited hg hmem]; rfl
  | succ f ih =>
    intro r c pre visited found hnd hb hcnt
    by_cases hg : r < 0 ∨ (gridSize : Int) ≤ r ∨ c < 0 ∨ (gridSize : Int) ≤ c
    · rw [recursivelyFind_oob hg, recursivelyFind_oob hg]
    · by_cases hv : (r, c) ∈ visited
      · rw [recursivelyFind_visited hg hv, recursivelyFind_visited hg hv]
      · by_cases hp : (dict.any fun x =>
            startsWith (pre ++ [letterAt grid r c]) x) = true
        · rw [recursivelyFind_descend hg hv hp,
            recursivelyFind_descend hg hv hp]
          apply List.foldl_ext
          intro acc d _
          apply ih
          · exact List.Nodup.cons hv hnd
          · intro p hpmem
            rcases List.mem_cons.mp hpmem with rfl | hpmem'
            · exact (guard_iff gridSize r c).mp hg
            · exact hb p hpmem'
          · simp only [List.length_cons]
            omega
        · rw [recursivelyFind_pruned hg hv (by simpa using hp),
            recursivelyFind_pruned hg hv (by simpa using hp)]

theorem recursivelyFind_fuel_ge (gridSize : Nat) (grid : GridData)
    (dict : List Word) (k : Nat) :
    ∀ (fuel : Nat) (r c : Int) (pre : Word) (visited : List Coord)
      (found : List Word),
      visited.Nodup → (∀ p ∈ visited, inBounds gridSize p) →
      gridSize * gridSize - visited.length ≤ fuel →
      recursivelyFind gridSize grid dict (fuel + k) r c pre visited found =
        recursivelyFind gridSize grid dict fuel r c pre visited found := by
  induction k with
  | zero => intro fuel r c pre visited found _ _ _; rfl
  | succ m ih =>
    intro fuel r c pre visited found hnd hb hcnt
    have h1 : fuel + (m + 1) = (fuel + m) + 1 := by omega
    rw [h1, recursivelyFind_fuel_succ gridSize grid dict (fuel + m) r c pre
      visited found hnd hb (by omega)]
    exact ih fuel r c pre visited found hnd hb hcnt

/-- C7: the solver's recursion terminates within a depth bounded by the
grid-cell count: giving the fueled recursion any budget of at least
`gridSize²` (one unit per cell, the same bound as the visited set) computes
the same result as `solveGrid`'s own budget of exactly `gridSize²` — every
call either stops at a guard or consumes one previously-unvisited cell. -/
theorem C7_recursion_depth_bounded (gridSize : Nat) (grid : GridData)
    (dict : List Word) (fuel : Nat) (h : gridSize * gridSize ≤ fuel) :
    solveGridWithFuel gridSize grid dict fuel = solveGrid gridSize grid dict := by
  unfold solveGrid solveGridWithFuel
  apply List.foldl_ext
  intro acc p _
  obtain ⟨k, rfl⟩ := Nat.exists_eq_add_of_le h
  exact recursivelyFind_fuel_ge gridSize grid dict k (gridSize * gridSize)
    p.1 p.2 [] [] acc List.nodup_nil (by simp) (by simp)

/-! ## Solver: soundness and completeness -/

theorem wordOfPath_append (grid : GridData) (l : List Coord) (p : Coord) :
    wordOfPath grid (l ++ [p]) = wordOfPath grid l ++ [letterAt grid p.1 p.2] := by
  unfold wordOfPath
  rw [List.map_append]
  rfl

theorem recursivelyFind_sound (gridSize : Nat) (grid : GridData)
    (dict : List Word) :
    ∀ (fuel : Nat) (r c : Int) (pre : Word) (visited : List Coord)
      (found : List Word),
      (∀ p ∈ visited, inBounds gridSize p) → visited.Nodup →
      List.Chain' adjacent (visited.reverse ++ [(r, c)]) →
      pre = wordOfPath grid visited.reverse →
      ∀ w, w ∈ recursivelyFind gridSize grid dict fuel r c pre visited found →
        w ∈ found ∨ (3 ≤ w.length ∧ w ∈ dict ∧
          ∃ path, LegalPath gridSize path ∧ wordOfPath grid path = w) := by
  intro fuel
  induction fuel with
  | zero => exact fun r c pre visited found _ _ _ _ w hw => Or.inl hw
  | succ f ih =>
    intro r c pre visited found hb hnd hchain hpre w hw
    by_cases hg : r < 0 ∨ (gridSize : Int) ≤ r ∨ c < 0 ∨ (gridSize : Int) ≤ c
    · rw [recursivelyFind_oob hg] at hw; exact Or.inl hw
    · by_cases hv : (r, c) ∈ visited
      · rw [recursivelyFind_visited hg hv] at hw; exact Or.inl hw
      · by_cases hpot : (dict.any fun x =>
            startsWith (pre ++ [letterAt grid r c]) x) = true
        · rw [recursivelyFind_descend hg hv hpot] at hw
          have hrc : inBounds gridSize (r, c) := (guard_iff gridSize r c).mp hg
          have hword : pre ++ [letterAt grid r c] =
              wordOfPath grid (visited.reverse ++ [(r, c)]) := by
            rw [wordOfPath_append, ← hpre]
          have hstep : ∀ acc (d : Int × Int) w', d ∈ neighborOffsets →
              w' ∈ recursivelyFind gridSize grid dict f (r + d.1) (c + d.2)
                (pre ++ [letterAt grid r c]) ((r, c) :: visited) acc →
              w' ∈ acc ∨ (3 ≤ w'.length ∧ w' ∈ dict ∧
                ∃ path, LegalPath gridSize path ∧ wordOfPath grid path = w') := by
            intro acc d w' hd hw'
            refine ih (r + d.1) (c + d.2) (pre ++ [letterAt grid r c])
              ((r, c) :: visited) acc ?_ (List.Nodup.cons hv hnd) ?_ ?_ w' hw'
            · intro p hp
              rcases List.mem_cons.mp hp with rfl | hp'
              · exact hrc
              · exact hb p hp'
            · rw [List.reverse_cons, List.chain'_append]
              refine ⟨hchain, List.chain'_singleton _, ?_⟩
              intro u hu v hv'
              rw [List.getLast?_concat] at hu
              simp only [Option.mem_def, Option.some.injEq] at hu
              simp only [List.head?_cons, Option.mem_def,
                Option.some.injEq] at hv'
              subst hu
              subst hv'
              exact adjacent_offset hd
            · rw [List.reverse_cons, ← hword]
          rcases foldl_mem_elim
              (P := fun w' => 3 ≤ w'.length ∧ w' ∈ dict ∧
                ∃ path, LegalPath gridSize path ∧ wordOfPath grid path = w')
              (fun acc d =>
                recursivelyFind gridSize grid dict f (r + d.1) (c + d.2)
                  (pre ++ [letterAt grid r c]) ((r, c) :: visited) acc)
              neighborOffsets hstep _ w hw with hfound | hgood
          · by_cases hins : 3 ≤ (pre ++ [letterAt grid r c]).length ∧
                (pre ++ [letterAt grid r c]) ∈ dict
            · rw [if_pos hins] at hfound
              rcases mem_insertWord_iff.mp hfound with h' | rfl
              · exact Or.inl h'
              · refine Or.inr ⟨hins.1, hins.2,
                  visited.reverse ++ [(r, c)], ⟨?_, ?_, hchain, ?_⟩,
                  hword.symm⟩
                · simp
                · rw [List.nodup_append]
                  refine ⟨List.nodup_reverse.mpr hnd,
                    List.nodup_singleton _, ?_⟩
                  intro u hu hu1
                  simp only [List.mem_singleton] at hu1
                  subst hu1
                  exact hv (List.mem_reverse.mp hu)
                · intro p hp
                  rcases List.mem_append.mp hp with hp' | hp'
                  · exact hb p (List.mem_reverse.mp hp')
                  · simp only [List.mem_singleton] at hp'
                    subst hp'
                    exact hrc
            · rw [if_neg hins] at hfound
              exact Or.inl hfound
          · exact Or.inr hgood
        · rw [recursivelyFind_pruned hg hv (by simpa using hpot)] at hw
          exact Or.inl hw

theorem recursivelyFind_complete (gridSize : Nat) (grid : GridData)
    (dict : List Word) :
    ∀ (fuel : Nat) (path : List Coord) (r c : Int) (pre : Word)
      (visited : List Coord) (found : List Word),
      path.length ≤ fuel →
      path.head? = some (r, c) →
      List.Chain' adjacent path → path.Nodup →
      (∀ p ∈ path, inBounds gridSize p) →
      (∀ p ∈ path, p ∉ visited) →
      (pre ++ wordOfPath grid path) ∈ dict →
      3 ≤ (pre ++ wordOfPath grid path).length →
      (pre ++ wordOfPath grid path) ∈
        recursivelyFind gridSize grid dict fuel r c pre visited found := by
  intro fuel
  induction fuel with
  | zero =>
    intro path r c pre visited found hlen hhead _ _ _ _ _ _
    have : path = [] := List.length_eq_zero.mp (by omega)
    subst this
    simp at hhead
  | succ f ih =>
    intro path r c pre visited found hlen hhead hchain hnd hb hdisj hdict h3
    obtain ⟨p₀, rest, rfl⟩ : ∃ p₀ t, path = p₀ :: t := by
      cases path with
      | nil => simp at hhead
      | cons a t => exact ⟨a, t, rfl⟩
    have hp₀ : p₀ = (r, c) := by
      simp only [List.head?_cons, Option.some.injEq] at hhead
      exact hhead
    subst hp₀
    have hrc : inBounds gridSize (r, c) := hb (r, c) (List.mem_cons_self _ _)
    have hg : ¬(r < 0 ∨ (gridSize : Int) ≤ r ∨ c < 0 ∨ (gridSize : Int) ≤ c) :=
      (guard_iff gridSize r c).mpr hrc
    have hv : (r, c) ∉ visited := hdisj (r, c) (List.mem_cons_self _ _)
    have hsplit : pre ++ wordOfPath grid ((r, c) :: rest) =
        (pre ++ [letterAt grid r c]) ++ wordOfPath grid rest := by
      unfold wordOfPath
      simp [List.map_cons]
    have hpot : (dict.any fun x =>
        startsWith (pre ++ [letterAt grid r c]) x) = true := by
      rw [List.any_eq_true]
      refine ⟨pre ++ wordOfPath grid ((r, c) :: rest), hdict, ?_⟩
      rw [hsplit]
      exact startsWith_append_self _ _
    rw [recursivelyFind_descend hg hv hpot]
    have hmono : ∀ (acc : List Word) (d : Int × Int) (x : Word), x ∈ acc →
        x ∈ recursivelyFind gridSize grid dict f (r + d.1) (c + d.2)
          (pre ++ [letterAt grid r c]) ((r, c) :: visited) acc :=
      fun acc d x hx => mem_recursivelyFind_mono gridSize grid dict f _ _ _ _
        acc x hx
    cases rest with
    | nil =>
      -- the path ends here: the full word is the extended prefix itself
      have hw : pre ++ wordOfPath grid [((r, c) : Coord)] =
          pre ++ [letterAt grid r c] := by
        unfold wordOfPath
        simp
      rw [hw] at hdict h3 ⊢
      apply mem_foldl_of_mem _ hmono
      rw [if_pos ⟨h3, hdict⟩]
      exact self_mem_insertWord _ _
    | cons q rest' =>
      have hadj : adjacent (r, c) q := (List.chain'_cons.mp hchain).1
      have hdm : ((q.1 - r, q.2 - c) : Int × Int) ∈ neighborOffsets :=
        offset_mem_of_adjacent hadj
      rw [hsplit]
      apply foldl_mem_of_step _ hmono (q.1 - r, q.2 - c) _ ?_ neighborOffsets
        hdm
      intro acc
      have hq1 : r + (q.1 - r) = q.1 := by omega
      have hq2 : c + (q.2 - c) = q.2 := by omega
      simp only [hq1, hq2]
      refine ih (q :: rest') q.1 q.2 (pre ++ [letterAt grid r c])
        ((r, c) :: visited) acc ?_ rfl (List.chain'_cons.mp hchain).2
        (List.Nodup.of_cons hnd) ?_ ?_ ?_ ?_
      · simp only [List.length_cons] at hlen ⊢
        omega
      · intro p hp
        exact hb p (List.mem_cons_of_mem _ hp)
      · intro p hp
        intro hmem
        rcases List.mem_cons.mp hmem with rfl | hmem'
        · exact (List.nodup_cons.mp hnd).1 hp
        · exact hdisj p (List.mem_cons_of_mem _ hp) hmem'
      · rw [← hsplit]
        exact hdict
      · rw [← hsplit]
        exact h3

/-- C1: membership in the solver's result is exactly: a dictionary word of
length at least 3 spelled by some legal path (nonempty, duplicate-free,
consecutive cells at Chebyshev distance 1, all in bounds). -/
theorem C1_solveGrid_characterization (gridSize : Nat) (grid : GridData)
    (dict : List Word) (w : Word) :
    w ∈ solveGrid gridSize grid dict ↔
      (3 ≤ w.length ∧ w ∈ dict ∧
        ∃ path, LegalPath gridSize path ∧ wordOfPath grid path = w) := by
  constructor
  · intro hw
    unfold solveGrid solveGridWithFuel at hw
    have hstep : ∀ (acc : List Word) (p : Coord) (w' : Word),
        p ∈ allCells gridSize →
        w' ∈ recursivelyFind gridSize grid dict (gridSize * gridSize)
          p.1 p.2 [] [] acc →
        w' ∈ acc ∨ (3 ≤ w'.length ∧ w' ∈ dict ∧
          ∃ path, LegalPath gridSize path ∧ wordOfPath grid path = w') := by
      intro acc p w' _ hw'
      exact recursivelyFind_sound gridSize grid dict (gridSize * gridSize)
        p.1 p.2 [] [] acc (by simp) List.nodup_nil
        (by simpa using List.chain'_singleton (α := Coord) (p.1, p.2))
        rfl w' hw'
    rcases foldl_mem_elim
        (P := fun w' => 3 ≤ w'.length ∧ w' ∈ dict ∧
          ∃ path, LegalPath gridSize path ∧ wordOfPath grid path = w')
        (fun acc p =>
          recursivelyFind gridSize grid dict (gridSize * gridSize)
            p.1 p.2 [] [] acc)
        (allCells gridSize) hstep [] w hw with hfalse | hgood
    · cases hfalse
    · exact hgood
  · rintro ⟨hlen, hdict, path, ⟨hne, hnd, hchain, hb⟩, hword⟩
    unfold solveGrid solveGridWithFuel
    obtain ⟨p₀, rest, rfl⟩ : ∃ p₀ t, path = p₀ :: t := by
      cases path with
      | nil => exact absurd rfl hne
      | cons a t => exact ⟨a, t, rfl⟩
    have hmono : ∀ (acc : List Word) (p : Coord) (x : Word), x ∈ acc →
        x ∈ recursivelyFind gridSize grid dict (gridSize * gridSize)
          p.1 p.2 [] [] acc :=
      fun acc p x hx => mem_recursivelyFind_mono gridSize grid dict _ _ _ _ _
        acc x hx
    apply foldl_mem_of_step _ hmono p₀ w ?_ (allCells gridSize)
      (mem_allCells.mpr (hb p₀ (List.mem_cons_self _ _)))
    intro acc
    have hfull : w = [] ++ wordOfPath grid (p₀ :: rest) := by
      rw [← hword]
      rfl
    rw [hfull]
    refine recursivelyFind_complete gridSize grid dict (gridSize * gridSize)
      (p₀ :: rest) p₀.1 p₀.2 [] [] acc ?_ rfl hchain hnd hb (by simp) ?_ ?_
    · calc (p₀ :: rest).length
          ≤ (allCells gridSize).length :=
            length_le_of_nodup_subset hnd
              (fun p hp => mem_allCells.mpr (hb p hp))
        _ = gridSize * gridSize := length_allCells gridSize
    · rw [← hfull]
      exact hdict
    · rw [← hfull]
      exact hlen

/-! ## Grid generation: C3 -/

theorem buildGridData_dims (gridSize : Nat)
    (shuffle : List (List Char) → List (List Char)) (pick : Nat → Fin 6) :
    (buildGridData gridSize shuffle pick).length = gridSize ∧
      ∀ row ∈ buildGridData gridSize shuffle pick, row.length = gridSize := by
  constructor
  · simp [buildGridData]
  · intro row hrow
    unfold buildGridData at hrow
    simp only [List.mem_map, List.mem_range] at hrow
    rcases hrow with ⟨i, _, rfl⟩
    simp

theorem generateGridLoop_hit {gridSize : Nat} {dict : List Word}
    {minWords : Nat} {cand : Nat → GridData} {i remaining : Nat}
    {best : GridData} {mf : Int}
    (h : minWords ≤ (solveGrid gridSize (cand i) dict).length) :
    generateGridLoop gridSize dict minWords cand i (remaining + 1) best mf =
      (cand i, i + 1) := by
  rw [generateGridLoop]
  rw [if_pos h]

theorem generateGridLoop_miss_new {gridSize : Nat} {dict : List Word}
    {minWords : Nat} {cand : Nat → GridData} {i remaining : Nat}
    {best : GridData} {mf : Int}
    (h1 : ¬ minWords ≤ (solveGrid gridSize (cand i) dict).length)
    (h2 : mf < ((solveGrid gridSize (cand i) dict).length : Int)) :
    generateGridLoop gridSize dict minWords cand i (remaining + 1) best mf =
      generateGridLoop gridSize dict minWords cand (i + 1) remaining (cand i)
        ((solveGrid gridSize (cand i) dict).length : Int) := by
  rw [generateGridLoop]
  rw [if_neg h1, if_pos h2]

theorem generateGridLoop_miss_old {gridSize : Nat} {dict : List Word}
    {minWords : Nat} {cand : Nat → GridData} {i remaining : Nat}
    {best : GridData} {mf : Int}
    (h1 : ¬ minWords ≤ (solveGrid gridSize (cand i) dict).length)
    (h2 : ¬ mf < ((solveGrid gridSize (cand i) dict).length : Int)) :
    generateGridLoop gridSize dict minWords cand i (remaining + 1) best mf =
      generateGridLoop gridSize dict minWords cand (i + 1) remaining best
        mf := by
  rw [generateGridLoop]
  rw [if_neg h1, if_neg h2]

theorem generateGridLoop_first (gridSize : Nat) (dict : List Word)
    (minWords : Nat) (cand : Nat → GridData) :
    ∀ (remaining i i₀ : Nat) (best : GridData) (mf : Int),
      i ≤ i₀ → i₀ < i + remaining →
      minWords ≤ (solveGrid gridSize (cand i₀) dict).length →
      (∀ j, i ≤ j → j < i₀ →
        (solveGrid gridSize (cand j) dict).length < minWords) →
      generateGridLoop gridSize dict minWords cand i remaining best mf =
        (cand i₀, i₀ + 1) := by
  intro remaining
  induction remaining with
  | zero =>
    intro i i₀ best mf h1 h2 _ _
    omega
  | succ rem ih =>
    intro i i₀ best mf h1 h2 hq hbelow
    by_cases hi : i = i₀
    · subst hi
      exact generateGridLoop_hit hq
    · have hlt : (solveGrid gridSize (cand i) dict).length < minWords :=
        hbelow i le_rfl (by omega)
      by_cases hmf : mf < ((solveGrid gridSize (cand i) dict).length : Int)
      · rw [generateGridLoop_miss_new (by omega) hmf]
        exact ih (i + 1) i₀ _ _ (by omega) (by omega) hq
          (fun j hj1 hj2 => hbelow j (by omega) hj2)
      · rw [generateGridLoop_miss_old (by omega) hmf]
        exact ih (i + 1) i₀ _ _ (by omega) (by omega) hq
          (fun j hj1 hj2 => hbelow j (by omega) hj2)

theorem generateGridLoop_shortfall (gridSize : Nat) (dict : List Word)
    (minWords : Nat) (cand : Nat → GridData) :
    ∀ (remaining i : Nat) (best : GridData) (mf : Int),
      (∀ j, i ≤ j → j < i + remaining →
        (solveGrid gridSize (cand j) dict).length < minWords) →
      (generateGridLoop gridSize dict minWords cand i remaining best mf).2 =
        i + remaining ∧
      (((generateGridLoop gridSize dict minWords cand i remaining best
            mf).1 = best ∧
          ∀ j, i ≤ j → j < i + remaining →
            (((solveGrid gridSize (cand j) dict).length : Int) ≤ mf)) ∨
        (∃ j, i ≤ j ∧ j < i + remaining ∧
          (generateGridLoop gridSize dict minWords cand i remaining best
            mf).1 = cand j ∧
          mf < ((solveGrid gridSize (cand j) dict).length : Int) ∧
          ∀ k, i ≤ k → k < i + remaining →
            (solveGrid gridSize (cand k) dict).length ≤
              (solveGrid gridSize (cand j) dict).length)) := by
  intro remaining
  induction remaining with
  | zero =>
    intro i best mf _
    exact ⟨rfl, Or.inl ⟨rfl, fun j hj1 hj2 => by omega⟩⟩
  | succ rem ih =>
    intro i best mf hbelow
    have hi : (solveGrid gridSize (cand i) dict).length < minWords :=
      hbelow i le_rfl (by omega)
    by_cases hmf : mf < ((solveGrid gridSize (cand i) dict).length : Int)
    · rw [generateGridLoop_miss_new (by omega) hmf]
      obtain ⟨hused, hres⟩ := ih (i + 1) (cand i)
        ((solveGrid gridSize (cand i) dict).length : Int)
        (fun j hj1 hj2 => hbelow j (by omega) (by omega))
      refine ⟨by omega, ?_⟩
      rcases hres with ⟨heq, hall⟩ | ⟨j, hj1, hj2, heq, hgt, hall⟩
      · refine Or.inr ⟨i, le_rfl, by omega, heq, hmf, ?_⟩
        intro k hk1 hk2
        rcases Nat.eq_or_lt_of_le hk1 with rfl | hk1'
        · exact le_rfl
        · have := hall k (by omega) (by omega)
          omega
      · refine Or.inr ⟨j, by omega, by omega, heq, by omega, ?_⟩
        intro k hk1 hk2
        rcases Nat.eq_or_lt_of_le hk1 with rfl | hk1'
        · omega
        · exact hall k (by omega) (by omega)
    · rw [generateGridLoop_miss_old (by omega) hmf]
      obtain ⟨hused, hres⟩ := ih (i + 1) best mf
        (fun j hj1 hj2 => hbelow j (by omega) (by omega))
      refine ⟨by omega, ?_⟩
      rcases hres with ⟨heq, hall⟩ | ⟨j, hj1, hj2, heq, hgt, hall⟩
      · refine Or.inl ⟨heq, ?_⟩
        intro j hj1 hj2
        rcases Nat.eq_or_lt_of_le hj1 with rfl | hj1'
        · omega
        · exact hall j (by omega) (by omega)
      · refine Or.inr ⟨j, by omega, by omega, heq, hgt, ?_⟩
        intro k hk1 hk2
        rcases Nat.eq_or_lt_of_le hk1 with rfl | hk1'
        · omega
        · exact hall k (by omega) (by omega)

/-- C3: the generator consumes at most `maxAttempts` attempts; it commits
the first candidate whose solvable word count reaches `minWords`, stopping
immediately (consuming exactly that attempt count); if none qualifies it
consumes all `maxAttempts` attempts and commits a best-count candidate; and
(the candidates being what `buildGridData` produces) the committed grid is
always a fully populated `gridSize × gridSize` grid. -/
theorem C3_generateGrid_commits (gridSize : Nat) (dict : List Word)
    (shuffles : Nat → List (List Char) → List (List Char))
    (picks : Nat → Nat → Fin 6) (cand : Nat → GridData)
    (minWords maxAttempts : Nat) (hmax : 1 ≤ maxAttempts)
    (hcand : ∀ i, cand i = buildGridData gridSize (shuffles i) (picks i)) :
    ((generateGrid gridSize dict cand minWords maxAttempts).2 ≤
      maxAttempts) ∧
    (∀ i < maxAttempts,
      minWords ≤ (solveGrid gridSize (cand i) dict).length →
      (∀ j < i, (solveGrid gridSize (cand j) dict).length < minWords) →
      generateGrid gridSize dict cand minWords maxAttempts =
        (cand i, i + 1)) ∧
    ((∀ i < maxAttempts,
        (solveGrid gridSize (cand i) dict).length < minWords) →
      (generateGrid gridSize dict cand minWords maxAttempts).2 =
        maxAttempts ∧
      ∃ j < maxAttempts,
        (generateGrid gridSize dict cand minWords maxAttempts).1 = cand j ∧
        ∀ i < maxAttempts, (solveGrid gridSize (cand i) dict).length ≤
          (solveGrid gridSize (cand j) dict).length) ∧
    ((generateGrid gridSize dict cand minWords maxAttempts).1.length =
      gridSize ∧
      ∀ row ∈ (generateGrid gridSize dict cand minWords maxAttempts).1,
        row.length = gridSize) := by
  have hfirst : ∀ i < maxAttempts,
      minWords ≤ (solveGrid gridSize (cand i) dict).length →
      (∀ j < i, (solveGrid gridSize (cand j) dict).length < minWords) →
      generateGrid gridSize dict cand minWords maxAttempts =
        (cand i, i + 1) := by
    intro i hi hq hbelow
    unfold generateGrid
    exact generateGridLoop_first gridSize dict minWords cand maxAttempts 0 i
      [] (-1) (Nat.zero_le i) (by omega) hq
      (fun j _ hj2 => hbelow j hj2)
  have hshort : (∀ i < maxAttempts,
        (solveGrid gridSize (cand i) dict).length < minWords) →
      (generateGrid gridSize dict cand minWords maxAttempts).2 =
        maxAttempts ∧
      ∃ j < maxAttempts,
        (generateGrid gridSize dict cand minWords maxAttempts).1 = cand j ∧
        ∀ i < maxAttempts, (solveGrid gridSize (cand i) dict).length ≤
          (solveGrid gridSize (cand j) dict).length := by
    intro hall
    unfold generateGrid
    obtain ⟨hused, hres⟩ := generateGridLoop_shortfall gridSize dict minWords
      cand maxAttempts 0 [] (-1) (fun j _ hj2 => hall j (by omega))
    refine ⟨by omega, ?_⟩
    rcases hres with ⟨_, hle⟩ | ⟨j, _, hj2, heq, _, hall'⟩
    · exfalso
      have := hle 0 le_rfl (by omega)
      omega
    · exact ⟨j, by omega, heq,
        fun i hi => hall' i (by omega) (by omega)⟩
  refine ⟨?_, hfirst, hshort, ?_⟩
  · by_cases hex : ∃ i, i < maxAttempts ∧
        minWords ≤ (solveGrid gridSize (cand i) dict).length
    · have hfind := Nat.find_spec hex
      have heq := hfirst (Nat.find hex) hfind.1 hfind.2 (fun j hj => by
        have hm := Nat.find_min hex hj
        push_neg at hm
        exact hm (by omega))
      rw [heq]
      simp only
      omega
    · push_neg at hex
      have := (hshort (fun i hi => hex i hi)).1
      omega
  · by_cases hex : ∃ i, i < maxAttempts ∧
        minWords ≤ (solveGrid gridSize (cand i) dict).length
    · have hfind := Nat.find_spec hex
      have heq := hfirst (Nat.find hex) hfind.1 hfind.2 (fun j hj => by
        have hm := Nat.find_min hex hj
        push_neg at hm
        exact hm (by omega))
      rw [heq]
      simp only
      rw [hcand (Nat.find hex)]
      exact buildGridData_dims gridSize _ _
    · push_neg at hex
      obtain ⟨_, j, _, heqj, _⟩ := hshort (fun i hi => hex i hi)
      rw [heqj, hcand j]
      exact buildGridData_dims gridSize _ _

/-! ## Drag interaction: C8 -/

theorem trySelectCell_nil (r c : Int) : trySelectCell [] r c = [(r, c)] := rfl

theorem trySelectCell_length_pos (sel : List Coord) (r c : Int)
    (h : 1 ≤ sel.length) : 1 ≤ (trySelectCell sel r c).length := by
  unfold trySelectCell
  split
  · next hcond =>
    unfold deselectLast
    rw [List.length_dropLast]
    omega
  · cases hl : sel.getLast? with
    | none =>
      unfold selectCell
      rw [List.length_append]
      omega
    | some lastSel =>
      simp only
      split
      · unfold selectCell
        rw [List.length_append]
        omega
      · exact h

theorem handleInputMove_skip {st : InputState} (m : Option Coord)
    (h : st.isDragging = false ∨ st.isGameActive = false) :
    handleInputMove st m = st := by
  unfold handleInputMove
  rw [if_pos h]

theorem handleInputMove_none {st : InputState}
    (h : ¬(st.isDragging = false ∨ st.isGameActive = false)) :
    handleInputMove st none = st := by
  unfold handleInputMove
  rw [if_neg h]

theorem handleInputMove_some {st : InputState} {p : Coord}
    (h : ¬(st.isDragging = false ∨ st.isGameActive = false)) :
    handleInputMove st (some p) =
      { st with
        selectedCells := trySelectCell st.selectedCells p.1 p.2
        interactionMoved :=
          if (trySelectCell st.selectedCells p.1 p.2).length ≠
              st.selectedCells.length then true
          else st.interactionMoved } := by
  unfold handleInputMove
  rw [if_neg h]

theorem DragInv_step {st : InputState} (hinv : DragInv st)
    (m : Option Coord) : DragInv (handleInputMove st m) := by
  obtain ⟨hd, ha, hlen, hmoved⟩ := hinv
  have hno : ¬(st.isDragging = false ∨ st.isGameActive = false) := by
    rw [hd, ha]
    simp
  cases m with
  | none => rw [handleInputMove_none hno]; exact ⟨hd, ha, hlen, hmoved⟩
  | some p =>
    rw [handleInputMove_some hno]
    refine ⟨hd, ha, trySelectCell_length_pos _ _ _ hlen, ?_⟩
    intro hmv
    by_cases hch : (trySelectCell st.selectedCells p.1 p.2).length ≠
        st.selectedCells.length
    · simp only [if_pos hch] at hmv
      exact absurd hmv (by decide)
    · simp only [if_neg hch] at hmv
      push_neg at hch
      show (trySelectCell st.selectedCells p.1 p.2).length = 1
      rw [hch]
      exact hmoved hmv

theorem moved_mono_step {st : InputState} (m : Option Coord)
    (h : st.interactionMoved = true) :
    (handleInputMove st m).interactionMoved = true := by
  by_cases hno : st.isDragging = false ∨ st.isGameActive = false
  · rw [handleInputMove_skip m hno]; exact h
  · cases m with
    | none => rw [handleInputMove_none hno]; exact h
    | some p =>
      rw [handleInputMove_some hno]
      show (if (trySelectCell st.selectedCells p.1 p.2).length ≠
          st.selectedCells.length then true else st.interactionMoved) = true
      split
      · rfl
      · exact h

theorem moveFold_moved_iff :
    ∀ (ms : List (Option Coord)) (st : InputState), DragInv st →
      ((ms.foldl handleInputMove st).interactionMoved = true ↔
        (st.interactionMoved = true ∨ ∃ k,
          2 ≤ ((ms.take k).foldl handleInputMove st).selectedCells.length)) := by
  intro ms
  induction ms with
  | nil =>
    intro st hinv
    simp only [List.foldl_nil, List.take_nil]
    constructor
    · exact Or.inl
    · rintro (h | ⟨k, hk⟩)
      · exact h
      · by_cases hm : st.interactionMoved = true
        · exact hm
        · rw [Bool.not_eq_true] at hm
          have := hinv.2.2.2 hm
          omega
  | cons m rest ih =>
    intro st hinv
    have hinv2 := DragInv_step hinv m
    rw [List.foldl_cons, ih (handleInputMove st m) hinv2]
    have hno : ¬(st.isDragging = false ∨ st.isGameActive = false) := by
      rw [hinv.1, hinv.2.1]
      simp
    have hsplit : (∃ k, 2 ≤ (((m :: rest).take k).foldl handleInputMove
          st).selectedCells.length) ↔
        (2 ≤ st.selectedCells.length ∨ ∃ j,
          2 ≤ ((rest.take j).foldl handleInputMove
            (handleInputMove st m)).selectedCells.length) := by
      constructor
      · rintro ⟨k, hk⟩
        cases k with
        | zero =>
          simp only [List.take_zero, List.foldl_nil] at hk
          exact Or.inl hk
        | succ j =>
          simp only [List.take_succ_cons, List.foldl_cons] at hk
          exact Or.inr ⟨j, hk⟩
      · rintro (h | ⟨j, hj⟩)
        · exact ⟨0, by simpa using h⟩
        · exact ⟨j + 1, by simpa using hj⟩
    rw [hsplit]
    have f2 : 2 ≤ st.selectedCells.length → st.interactionMoved = true := by
      intro h2
      by_cases hm : st.interactionMoved = true
      · exact hm
      · rw [Bool.not_eq_true] at hm
        have := hinv.2.2.2 hm
        omega
    have f1 : (handleInputMove st m).interactionMoved = true →
        st.interactionMoved = true ∨
          2 ≤ (handleInputMove st m).selectedCells.length := by
      intro h
      cases m with
      | none => rw [handleInputMove_none hno] at h ⊢; exact Or.inl h
      | some p =>
        rw [handleInputMove_some hno] at h ⊢
        by_cases hch : (trySelectCell st.selectedCells p.1 p.2).length ≠
            st.selectedCells.length
        · by_cases hm : st.interactionMoved = true
          · exact Or.inl hm
          · rw [Bool.not_eq_true] at hm
            have h1 := hinv.2.2.2 hm
            have h2 := trySelectCell_length_pos st.selectedCells p.1 p.2
              hinv.2.2.1
            right
            show 2 ≤ (trySelectCell st.selectedCells p.1 p.2).length
            omega
        · have h' : (if (trySelectCell st.selectedCells p.1 p.2).length ≠
              st.selectedCells.length then true
            else st.interactionMoved) = true := h
          rw [if_neg hch] at h'
          exact Or.inl h'
    constructor
    · rintro (h | ⟨j, hj⟩)
      · rcases f1 h with h' | h'
        · exact Or.inl h'
        · refine Or.inr (Or.inr ⟨0, ?_⟩)
          simpa using h'
      · exact Or.inr (Or.inr ⟨j, hj⟩)
    · rintro (h | h | ⟨j, hj⟩)
      · exact Or.inl (moved_mono_step m h)
      · exact Or.inl (moved_mono_step m (f2 h))
      · exact Or.inr ⟨j, hj⟩

theorem handleInputEnd_sel (st : InputState) :
    (handleInputEnd st).1.selectedCells = st.selectedCells := by
  unfold handleInputEnd
  split
  · rfl
  · rfl

theorem intervalState_shape (press : Coord) (ms : List (Option Coord)) :
    intervalState [] press ms = ms.foldl handleInputMove
      ⟨[(press.1, press.2)], true, false, true⟩ := by
  unfold intervalState handleInputStart
  rw [if_neg (by simp)]
  rfl

theorem DragInv_fold (ms : List (Option Coord)) :
    ∀ (st : InputState), DragInv st →
      DragInv (ms.foldl handleInputMove st) := by
  induction ms with
  | nil => exact fun st h => h
  | cons m rest ih =>
    intro st h
    exact ih (handleInputMove st m) (DragInv_step h m)

/-- C8: starting from an empty selection, pressing a cell and dragging,
the release auto-submits exactly when the selection reached at least two
cells at some point during the press-to-release interval; otherwise (a
stationary press) the selection is left as built, nonempty, for explicit
submission. -/
theorem C8_auto_submit_iff (press : Coord) (ms : List (Option Coord)) :
    ((runInterval [] press ms).2 = true ↔
      ∃ k, 2 ≤ (intervalState [] press (ms.take k)).selectedCells.length) ∧
    ((runInterval [] press ms).2 = false →
      (runInterval [] press ms).1.selectedCells =
        (intervalState [] press ms).selectedCells ∧
      1 ≤ (runInterval [] press ms).1.selectedCells.length) := by
  have hst1 : DragInv (⟨[(press.1, press.2)], true, false, true⟩ :
      InputState) := ⟨rfl, rfl, by simp, fun _ => rfl⟩
  have hfinal := DragInv_fold ms _ hst1
  have hmoved := moveFold_moved_iff ms _ hst1
  have hdrag : (intervalState [] press ms).isDragging = true := by
    rw [intervalState_shape]
    exact hfinal.1
  have hflag : (runInterval [] press ms).2 =
      decide ((intervalState [] press ms).interactionMoved = true ∧
        1 ≤ (intervalState [] press ms).selectedCells.length) := by
    unfold runInterval handleInputEnd
    rw [if_pos hdrag]
  constructor
  · rw [hflag]
    simp only [decide_eq_true_eq]
    constructor
    · rintro ⟨hmv, _⟩
      rw [intervalState_shape] at hmv
      rcases hmoved.mp hmv with hfalse | ⟨k, hk⟩
      · exact absurd hfalse Bool.false_ne_true
      · refine ⟨k, ?_⟩
        rw [intervalState_shape]
        exact hk
    · rintro ⟨k, hk⟩
      rw [intervalState_shape] at hk
      refine ⟨?_, ?_⟩
      · rw [intervalState_shape]
        exact hmoved.mpr (Or.inr ⟨k, hk⟩)
      · rw [intervalState_shape]
        exact hfinal.2.2.1
  · intro _
    refine ⟨?_, ?_⟩
    · unfold runInterval
      exact handleInputEnd_sel _
    · unfold runInterval
      rw [handleInputEnd_sel]
      rw [intervalState_shape]
      exact hfinal.2.2.1

/-! ## Witnesses: the claim theorems applied at concrete inputs -/

/-- Witness for C2: submitting CAT against the dictionary {CAT} from a
fresh active state clears the selection and scores it. -/
theorem C2_submit_witness :
    (submitWord (some [['C', 'A', 'T']])
      ⟨0, [], [((0 : Int), (0 : Int))], true⟩
      ['C', 'A', 'T']).1.selectedCells = [] ∧
    (submitWord (some [['C', 'A', 'T']])
      ⟨0, [], [((0 : Int), (0 : Int))], true⟩
      ['C', 'A', 'T']).1.score = 0 + getScore (trUpperWord ['C', 'A', 'T']) := by
  have h := C2_submit_accept_reject [['C', 'A', 'T']]
    ⟨0, [], [((0 : Int), (0 : Int))], true⟩ ['C', 'A', 'T'] rfl
  exact ⟨h.1, (h.2.2 (by decide)).2.1⟩

/-- Witness for C3: one attempt on a 1×1 grid with threshold 0 consumes at
most one attempt. -/
theorem C3_generateGrid_witness :
    (generateGrid 1 [] (fun _ => buildGridData 1 id fun _ => (0 : Fin 6))
      0 1).2 ≤ 1 :=
  (C3_generateGrid_commits 1 [] (fun _ => id) (fun _ _ => (0 : Fin 6))
    (fun _ => buildGridData 1 id fun _ => (0 : Fin 6)) 0 1 le_rfl
    (fun _ => rfl)).1

/-- Witness for C4: the path built by two adjacent inputs is a valid path
and ignores a far-away input. -/
theorem C4_selection_witness :
    (List.Chain' adjacent
        (runSel [SelAction.input 0 0, SelAction.input 0 1]) ∧
      (runSel [SelAction.input 0 0, SelAction.input 0 1]).Nodup) ∧
    trySelectCell (runSel [SelAction.input 0 0, SelAction.input 0 1]) 5 5 =
      runSel [SelAction.input 0 0, SelAction.input 0 1] := by
  have h := C4_selection_invariant [SelAction.input 0 0, SelAction.input 0 1]
  refine ⟨h.1, h.2 5 5 (0, 1) (by decide) ?_⟩
  left
  decide

/-- Witness for C5: on the two-cell path (0,0),(1,1), inputting (0,0)
(the second-to-last cell) pops exactly the last cell. -/
theorem C5_backtrack_witness :
    trySelectCell [((0 : Int), (0 : Int)), (1, 1)] 0 0 =
      [((0 : Int), (0 : Int)), (1, 1)].dropLast :=
  (C5_backtrack_pops_exactly_last [((0 : Int), (0 : Int)), (1, 1)] 0 0
    (by decide)).1 (by decide)

/-- Witness for C6: a 3-letter word scores no more than a 5-letter word. -/
theorem C6_getScore_witness :
    getScore ['A', 'B', 'C'] ≤ getScore ['A', 'B', 'C', 'D', 'E'] :=
  C6_getScore_table_and_monotone.2.2.2.2.2.2 ['A', 'B', 'C']
    ['A', 'B', 'C', 'D', 'E'] (by decide) (by decide)

/-- Witness for C7: on a 1×1 grid, fuel 2 computes the same result as the
committed fuel of 1. -/
theorem C7_fuel_witness :
    solveGridWithFuel 1 [['A']] [] 2 = solveGrid 1 [['A']] [] :=
  C7_recursion_depth_bounded 1 [['A']] [] 2 (by decide)

/-- Witness for C8: a drag across two cells auto-submits; a stationary
press keeps its one-cell selection. -/
theorem C8_auto_submit_witness :
    (runInterval [] ((0 : Int), (0 : Int)) [some (0, 1)]).2 = true ∧
    1 ≤ (runInterval [] ((0 : Int), (0 : Int)) []).1.selectedCells.length := by
  constructor
  · exact (C8_auto_submit_iff (0, 0) [some (0, 1)]).1.mpr ⟨1, by decide⟩
  · exact ((C8_auto_submit_iff (0, 0) []).2 (by decide)).2

/-- Witness for C9: with no dictionary loaded, CAT is accepted and scored
from a fresh active state. -/
theorem C9_missing_dictionary_witness :
    submitWord none ⟨0, [], [((0 : Int), (0 : Int))], true⟩ ['C', 'A', 'T'] =
      ({ score := 1, foundWords := [['C', 'A', 'T']], selectedCells := [],
          isGameActive := true }, SubmitOutcome.accepted 1) := by
  have h := C9_missing_dictionary_accepts
    ⟨0, [], [((0 : Int), (0 : Int))], true⟩ ['C', 'A', 'T'] rfl (by decide)
    (by decide)
  exact h.trans (by decide)

/-- Witness for C10: a single letter scores 1 in `getScore` but is
rejected as too short by `submitWord`, leaving the score untouched. -/
theorem C10_below_table_witness :
    getScore ['A'] = 1 ∧
    submitWord (some []) ⟨7, [], [((0 : Int), (0 : Int))], true⟩ ['A'] =
      ({ score := 7, foundWords := [], selectedCells := [],
          isGameActive := true }, SubmitOutcome.tooShort) := by
  constructor
  · exact C10_below_table_scores_one.1 ['A'] (by decide)
  · have h := C10_below_table_scores_one.2 (some [])
      ⟨7, [], [((0 : Int), (0 : Int))], true⟩ ['A'] rfl (by decide)
    exact h.trans (by decide)

end Ozgeparty
